import Mathlib

/-!
# Verification of the Hervor API test runner

Shallow embedding of `src/hervor.py`, a declarative HTTP API test runner.

Modelling conventions:

* A decoded JSON value is the inductive `Json`; a JSON object is an ordered
  association list `List (String × Json)`, mirroring the insertion order of a
  Python `dict` produced by `json.load` (Python dict keys are unique, and key
  deletion removes the key while preserving the order of the rest, which is
  what `dictDel` does).
* File I/O and JSON text decoding are outside the embedding: `parse_tests`
  here receives the already-decoded top-level object, and models everything
  the Python `parse_tests` does after `json.load` returns.
* Fallible Python code (a `KeyError` from `d[k]`, or a `TypeError` from using
  a value at the wrong type) is modelled with `Except ParseError`.
* The network is a pure oracle `Server : String → String → Response`
  (method, url ↦ response); `requests.request(method, url)` becomes an
  application of the oracle.  The executor `conduct_tests` returns the trace
  of observable events (terminal prints and outgoing HTTP requests) instead
  of performing them, and the fatal "no base URI" `ArgumentError` becomes the
  `Except.error` branch (the Python raise happens before any print or
  request, so the error branch carries no trace).
* Python in-place mutation of the document dict by `parse_test_groups` is
  modelled by explicit state passing: the function returns the mutated
  dictionary alongside its result.
-/

/-- A decoded JSON value (`json.load` output). Objects keep document order. -/
inductive Json where
  | null : Json
  | bool : Bool → Json
  | num : Int → Json
  | str : String → Json
  | arr : List Json → Json
  | obj : List (String × Json) → Json

/-- Python `d.get(k)` / `k in d` lookup on an ordered dict: the entry with
the key (keys of a Python dict are unique, so the first match is the one). -/
def dictGet : List (String × Json) → String → Option Json
  | [], _ => none
  | p :: tl, k => if p.1 = k then some p.2 else dictGet tl k

/-- Python `del d[k]` on a dict with unique keys: drop the key, keep order. -/
def dictDel : List (String × Json) → String → List (String × Json)
  | [], _ => []
  | p :: tl, k => if p.1 = k then dictDel tl k else p :: dictDel tl k

/-- An HTTP response as the program consumes it: status code and body text. -/
structure Response where
  status_code : Int
  text : String
deriving Repr, DecidableEq

/-- The network oracle: method and url to response.  Total: a network-level
failure (which in Python aborts the whole run) is outside this model. -/
def Server : Type := String → String → Response

/-- `TestCase`: one HTTP assertion (dataclass of `hervor.py`). -/
structure TestCase where
  name : String
  endpoint : String
  method : String
  status : Int
  output : Option String
deriving Repr, DecidableEq

/-- `TestCase.conduct(self, base_uri)`: send the request, compare status code,
and, when an expected output is present, also compare the body text. -/
def TestCase.conduct (tc : TestCase) (server : Server) (base_uri : String) : Bool :=
  let req := server tc.method (base_uri ++ tc.endpoint)
  let result := req.status_code == tc.status
  match tc.output with
  | none => result
  | some o => result && (req.text == o)

/-- `TestGroup`: a named ordered collection of test cases. -/
structure TestGroup where
  name : String
  test_cases : List TestCase
deriving Repr, DecidableEq

/-- `Test`: the full bundle. `default_uri` is `Optional` at runtime
(`program_data.get('Default URI')` may return `None`). -/
structure Test where
  name : String
  «variables» : List (String × String)
  default_uri : Option String
  test_groups : List TestGroup
deriving Repr, DecidableEq

/-- Text colors used by `cprint` in the source. -/
inductive Color where
  | blue : Color
  | grey : Color
  | green : Color
  | red : Color
deriving Repr, DecidableEq

/-- One observable step of the executor: a colored terminal print
(`cprint(text, color)`) or an outgoing HTTP request. -/
inductive Event where
  | print : String → Color → Event
  | httpRequest : (method : String) → (url : String) → Event
deriving Repr, DecidableEq

/-- The events of running one test case inside the `conduct_tests` loop:
print the grey progress line, send the one request `conduct` makes, then
print the green/red outcome line. -/
def runCase (server : Server) (base_uri : String) (tc : TestCase) : List Event :=
  Event.print ("\t" ++ tc.name ++ " Testing") Color.grey ::
  Event.httpRequest tc.method (base_uri ++ tc.endpoint) ::
  (if tc.conduct server base_uri then
    [Event.print ("\r\t" ++ tc.name ++ " Passed!") Color.green]
  else
    [Event.print ("\r\t" ++ tc.name ++ " Failed!") Color.red])

/-- The inner `for test_case in test_group.test_cases` loop. -/
def runCases (server : Server) (base_uri : String) : List TestCase → List Event
  | [] => []
  | tc :: rest => runCase server base_uri tc ++ runCases server base_uri rest

/-- One iteration of the outer loop: print the blue group header, then run
the group's cases. -/
def runGroup (server : Server) (base_uri : String) (g : TestGroup) : List Event :=
  Event.print g.name Color.blue :: runCases server base_uri g.test_cases

/-- The outer `for test_group in test.test_groups` loop. -/
def runGroups (server : Server) (base_uri : String) : List TestGroup → List Event
  | [] => []
  | g :: rest => runGroup server base_uri g ++ runGroups server base_uri rest

/-- `conduct_tests(test, base_uri)`: resolve the base URI (`if base_uri is
None`, fall back to `test.default_uri`; raise `ArgumentError` when that is
`None` too), then walk groups and cases.  Returns the event trace, or the
fatal error message raised before any print or request. -/
def conduct_tests (test : Test) (server : Server) (base_uri : Option String) :
    Except String (List Event) :=
  match base_uri with
  | none =>
    match test.default_uri with
    | none => Except.error ("No base URI provided " ++ "and no default URI.")
    | some du => Except.ok (runGroups server du test.test_groups)
  | some b => Except.ok (runGroups server b test.test_groups)

/-- The HTTP-request events of a trace (for counting network calls). -/
def httpEvents (l : List Event) : List Event :=
  l.filter (fun e => match e with | Event.httpRequest _ _ => true | _ => false)

/-- The blue-printed lines of a trace: exactly the group headers. -/
def printedGroupNames (l : List Event) : List String :=
  l.filterMap (fun e => match e with
    | Event.print t Color.blue => some t
    | _ => none)

/-- The grey-printed lines of a trace: exactly the per-case progress lines. -/
def printedCaseLines (l : List Event) : List String :=
  l.filterMap (fun e => match e with
    | Event.print t Color.grey => some t
    | _ => none)

/-- HTTP events of an executor run; an aborted run made no request. -/
def httpEventsE (r : Except String (List Event)) : List Event :=
  match r with
  | Except.ok l => httpEvents l
  | Except.error _ => []

/-- Group headers printed by an executor run. -/
def printedGroupNamesE (r : Except String (List Event)) : List String :=
  match r with
  | Except.ok l => printedGroupNames l
  | Except.error _ => []

/-- Case progress lines printed by an executor run. -/
def printedCaseLinesE (r : Except String (List Event)) : List String :=
  match r with
  | Except.ok l => printedCaseLines l
  | Except.error _ => []

/-- A fatal parse failure: a Python `KeyError` from `d[k]` on a missing key,
or a `TypeError` from using a JSON value at the wrong type. -/
inductive ParseError where
  | keyError : String → ParseError
  | typeError : ParseError
deriving Repr, DecidableEq

/-- Python `d[k]`: the value, or a `KeyError` naming the key. -/
def requireKey (d : List (String × Json)) (k : String) : Except ParseError Json :=
  match dictGet d k with
  | some v => Except.ok v
  | none => Except.error (ParseError.keyError k)

/-- Use a JSON value as a string (Python raises on misuse of the value). -/
def getStr : Json → Except ParseError String
  | Json.str s => Except.ok s
  | _ => Except.error ParseError.typeError

/-- Use a JSON value as an integer. -/
def getInt : Json → Except ParseError Int
  | Json.num n => Except.ok n
  | _ => Except.error ParseError.typeError

/-- Use a JSON value as an array. -/
def getArr : Json → Except ParseError (List Json)
  | Json.arr xs => Except.ok xs
  | _ => Except.error ParseError.typeError

/-- Use a JSON value as an object. -/
def getObj : Json → Except ParseError (List (String × Json))
  | Json.obj kvs => Except.ok kvs
  | _ => Except.error ParseError.typeError

/-- `parse_test_case(test_case_data)`: subscript lookups of `Name`,
`Endpoint`, `Method`, `Status` in source order (`KeyError` when missing),
and `test_case_data.get('Output')` (absence is not an error). -/
def parse_test_case (test_case_data : List (String × Json)) :
    Except ParseError TestCase := do
  let nameJ ← requireKey test_case_data "Name"
  let name ← getStr nameJ
  let endpointJ ← requireKey test_case_data "Endpoint"
  let endpoint ← getStr endpointJ
  let methodJ ← requireKey test_case_data "Method"
  let method ← getStr methodJ
  let statusJ ← requireKey test_case_data "Status"
  let status ← getInt statusJ
  let output ← match dictGet test_case_data "Output" with
    | none => pure none
    | some v => do
      let s ← getStr v
      pure (some s)
  pure (TestCase.mk name endpoint method status output)

/-- `parse_test_cases(test_group_data)`: parse each case dict in array
order, appending to the result list. -/
def parse_test_cases : List Json → Except ParseError (List TestCase)
  | [] => pure []
  | x :: xs => do
    let cd ← getObj x
    let tc ← parse_test_case cd
    let rest ← parse_test_cases xs
    pure (tc :: rest)

/-- The `for test_name in program_data` loop of `parse_test_groups`, after
the reserved keys were deleted: one `TestGroup` per remaining key, in
document order. -/
def parseGroupsLoop : List (String × Json) → Except ParseError (List TestGroup)
  | [] => pure []
  | (k, v) :: rest => do
    let arr ← getArr v
    let cases ← parse_test_cases arr
    let gs ← parseGroupsLoop rest
    pure (TestGroup.mk k cases :: gs)

/-- `parse_test_groups(program_data)`: delete `"Default URI"` when present,
delete `"Name"` (a `KeyError` when absent), then build one group per
remaining key.  The mutated dictionary is returned alongside the groups,
modelling the in-place mutation of the caller's dict. -/
def parse_test_groups (program_data : List (String × Json)) :
    Except ParseError (List TestGroup × List (String × Json)) :=
  let d0 := dictDel program_data "Default URI"
  match dictGet d0 "Name" with
  | none => Except.error (ParseError.keyError "Name")
  | some _ =>
    let d1 := dictDel d0 "Name"
    (parseGroupsLoop d1).map (fun gs => (gs, d1))

/-- `parse_tests` after `json.load`: read `Default URI` with `.get` (before
any mutation), look up `Name` (Python evaluates `program_data['Name']`
before the `parse_test_groups(program_data)` argument), then build the
groups; `variables` is always the empty mapping. -/
def parse_tests (program_data : List (String × Json)) : Except ParseError Test := do
  let default_uri ← match dictGet program_data "Default URI" with
    | none => pure none
    | some v => do
      let s ← getStr v
      pure (some s)
  let nameJ ← requireKey program_data "Name"
  let name ← getStr nameJ
  let r ← parse_test_groups program_data
  pure (Test.mk name [] default_uri r.1)

/-- The non-reserved entries of the document: what remains after the parser
deletes `"Default URI"` and `"Name"`, in document order. -/
def remainingEntries (doc : List (String × Json)) : List (String × Json) :=
  dictDel (dictDel doc "Default URI") "Name"

/-- The four required case fields, with presence checks in source order. -/
def caseMissingRequired (cd : List (String × Json)) : Bool :=
  (dictGet cd "Name").isNone || (dictGet cd "Endpoint").isNone ||
  (dictGet cd "Method").isNone || (dictGet cd "Status").isNone

/-- A case entry of a group array is missing a required field (a non-object
entry counts as malformed). -/
def caseJsonMissing : Json → Bool
  | Json.obj cd => caseMissingRequired cd
  | _ => true

/-- A group value has some malformed case (a non-array value is malformed). -/
def groupValueMissing : Json → Bool
  | Json.arr xs => xs.any caseJsonMissing
  | _ => true

/-- The document lacks the top-level `"Name"` key, or some case of some
group is missing one of its four required fields. -/
def docMissingRequired (doc : List (String × Json)) : Bool :=
  (dictGet doc "Name").isNone ||
  (remainingEntries doc).any (fun p => groupValueMissing p.2)

/-- An optional JSON value is, when present, a string. -/
def optIsStr : Option Json → Bool
  | none => true
  | some (Json.str _) => true
  | some _ => false

/-- An optional JSON value is, when present, an integer. -/
def optIsInt : Option Json → Bool
  | none => true
  | some (Json.num _) => true
  | some _ => false

/-- Every field of a case dict that is present has the type the Python code
uses it at (`Name`/`Endpoint`/`Method`/`Output` strings, `Status` integer).
Presence itself is not required here. -/
def wellTypedCaseDict (cd : List (String × Json)) : Bool :=
  optIsStr (dictGet cd "Name") && optIsStr (dictGet cd "Endpoint") &&
  optIsStr (dictGet cd "Method") && optIsInt (dictGet cd "Status") &&
  optIsStr (dictGet cd "Output")

/-- A case entry of a group array is an object with well-typed fields. -/
def wellTypedCaseJson : Json → Bool
  | Json.obj cd => wellTypedCaseDict cd
  | _ => false

/-- A group value is an array of well-typed case objects. -/
def wellTypedGroupValue : Json → Bool
  | Json.arr xs => xs.all wellTypedCaseJson
  | _ => false

/-- The document is well-typed: `Name` and `Default URI`, when present, are
strings, and every other key maps to an array of well-typed case objects.
This carves out the domain on which the dynamically-typed Python program
manipulates values at the types the dataclasses declare. -/
def wellTypedDoc (doc : List (String × Json)) : Bool :=
  optIsStr (dictGet doc "Name") && optIsStr (dictGet doc "Default URI") &&
  (remainingEntries doc).all (fun p => wellTypedGroupValue p.2)

/-- Whether a fallible computation succeeded. -/
def exceptIsOk {ε α : Type} (r : Except ε α) : Bool :=
  match r with
  | Except.ok _ => true
  | Except.error _ => false

/-- A parse outcome that, if it failed, failed with a `KeyError`. -/
def errorIsKeyError {α : Type} (r : Except ParseError α) : Bool :=
  match r with
  | Except.error (ParseError.keyError _) => true
  | Except.error ParseError.typeError => false
  | Except.ok _ => true

/-- The groups of a successful parse (junk on a failed one). -/
def parsedGroups (doc : List (String × Json)) : List TestGroup :=
  match parse_tests doc with
  | Except.ok t => t.test_groups
  | Except.error _ => []

/-- The bundle of a successful parse (junk on a failed one). -/
def parsedTest (doc : List (String × Json)) : Test :=
  match parse_tests doc with
  | Except.ok t => t
  | Except.error _ => Test.mk "" [] none []

/-- The `Name` field of a case object, when it is a string. -/
def caseNameOfJson : Json → Option String
  | Json.obj cd =>
    match dictGet cd "Name" with
    | some (Json.str s) => some s
    | _ => none
  | _ => none

/-- The case names listed by a group's array value, in array order. -/
def caseNamesOfGroupValue : Json → List String
  | Json.arr xs => xs.filterMap caseNameOfJson
  | _ => []

/-- The `output` field of a parsed case, with a non-`none` junk value when
parsing failed (so `= none` also certifies that parsing succeeded). -/
def parsedCaseOutput (cd : List (String × Json)) : Option String :=
  match parse_test_case cd with
  | Except.ok tc => tc.output
  | Except.error _ => some ""

/-- Modelled from the spec: "if `override_base_uri` is provided (non-empty),
use it; otherwise use `test.default_uri`".  The code instead tests the
override against `None` only; this definition exists to be compared with
`conduct_tests`. -/
def spec_effective_base_uri (override_base_uri default_uri : Option String) :
    Option String :=
  match override_base_uri with
  | some s => if s = "" then default_uri else some s
  | none => default_uri

/-- Fixture: a server answering every request with status 200, body "hello". -/
def serverHello : Server := fun _ _ => Response.mk 200 "hello"

/-- Fixture: a case expecting status 200 and body "hello". -/
def tcOut : TestCase := TestCase.mk "c" "/a" "GET" 200 (some "hello")

/-- Fixture: a case expecting status 200 with no body check. -/
def tcNoOut : TestCase := TestCase.mk "c" "/a" "GET" 200 none

/-- Fixture: a one-group bundle with a default URI. -/
def testWithDefault : Test :=
  Test.mk "n" [] (some "http://d") [TestGroup.mk "g" [tcNoOut]]

/-- Fixture: a one-group bundle with no default URI. -/
def testNoDefault : Test := Test.mk "n" [] none [TestGroup.mk "g" [tcNoOut]]

/-- Fixture: a group with an empty case array. -/
def emptyGroup : TestGroup := TestGroup.mk "g0" []

/-- Fixture: a well-typed document with no missing fields: two groups, the
second one empty, the first with two cases (one carrying an `Output`). -/
def docA : List (String × Json) :=
  [("Name", Json.str "S"), ("Default URI", Json.str "http://x"),
   ("G1", Json.arr
     [Json.obj [("Name", Json.str "c1"), ("Endpoint", Json.str "/a"),
       ("Method", Json.str "GET"), ("Status", Json.num 200)],
      Json.obj [("Name", Json.str "c2"), ("Endpoint", Json.str "/b"),
       ("Method", Json.str "POST"), ("Status", Json.num 201),
       ("Output", Json.str "ok")]]),
   ("G2", Json.arr [])]

/-- Fixture: a case dict with all four required fields and no `Output`. -/
def cdNoOutput : List (String × Json) :=
  [("Name", Json.str "c"), ("Endpoint", Json.str "/a"),
   ("Method", Json.str "GET"), ("Status", Json.num 200)]

/-- Fixture: `docA` with its two reserved keys deleted, as
`parse_test_groups` leaves the caller's dictionary. -/
def docARemaining : List (String × Json) :=
  [("G1", Json.arr
     [Json.obj [("Name", Json.str "c1"), ("Endpoint", Json.str "/a"),
       ("Method", Json.str "GET"), ("Status", Json.num 200)],
      Json.obj [("Name", Json.str "c2"), ("Endpoint", Json.str "/b"),
       ("Method", Json.str "POST"), ("Status", Json.num 201),
       ("Output", Json.str "ok")]]),
   ("G2", Json.arr [])]

/-- Fixture: the groups `docA` parses to. -/
def docAGroups : List TestGroup :=
  [TestGroup.mk "G1"
    [TestCase.mk "c1" "/a" "GET" 200 none,
     TestCase.mk "c2" "/b" "POST" 201 (some "ok")],
   TestGroup.mk "G2" []]

/-- Fixture: the bundle `docA` parses to. -/
def docATest : Test := Test.mk "S" [] (some "http://x") docAGroups

/-! ## Helper lemmas -/

/-- Reduce a successful bind. -/
@[simp] theorem exceptBind_ok {ε α β : Type} (a : α) (f : α → Except ε β) :
    (Except.ok a >>= f) = f a := rfl

/-- Reduce a failed bind. -/
@[simp] theorem exceptBind_error {ε α β : Type} (e : ε) (f : α → Except ε β) :
    ((Except.error e : Except ε α) >>= f) = Except.error e := rfl

/-- `pure` into `Except` is `ok`. -/
@[simp] theorem exceptPure_eq {ε α : Type} (a : α) :
    (pure a : Except ε α) = Except.ok a := rfl

/-- Reduce `Except.map` on a success. -/
@[simp] theorem exceptMap_ok {ε α β : Type} (f : α → β) (a : α) :
    (Except.ok a : Except ε α).map f = Except.ok (f a) := rfl

/-- Reduce `Except.map` on a failure. -/
@[simp] theorem exceptMap_error {ε α β : Type} (f : α → β) (e : ε) :
    (Except.error e : Except ε α).map f = Except.error e := rfl

/-- Deleting a key makes it unfindable. -/
theorem dictGet_dictDel_self (d : List (String × Json)) (k : String) :
    dictGet (dictDel d k) k = none := by
  induction d with
  | nil => rfl
  | cons p tl ih => by_cases h : p.1 = k <;> simp [dictDel, dictGet, h, ih]

/-- Deleting one key leaves lookups of any other key unchanged. -/
theorem dictGet_dictDel_ne (d : List (String × Json)) (k k' : String)
    (hne : k' ≠ k) : dictGet (dictDel d k) k' = dictGet d k' := by
  induction d with
  | nil => rfl
  | cons p tl ih =>
    have h3 : ¬(k = k') := fun he => hne he.symm
    by_cases h : p.1 = k
    · simp [dictDel, dictGet, h, h3, ih]
    · by_cases h' : p.1 = k' <;> simp [dictDel, dictGet, h, h', hne, ih]

/-- A print event is not a network call. -/
@[simp] theorem httpEvents_cons_print (t : String) (c : Color) (l : List Event) :
    httpEvents (Event.print t c :: l) = httpEvents l := rfl

/-- A request event is a network call. -/
@[simp] theorem httpEvents_cons_http (m u : String) (l : List Event) :
    httpEvents (Event.httpRequest m u :: l) =
      Event.httpRequest m u :: httpEvents l := rfl

/-- No events, no network calls. -/
@[simp] theorem httpEvents_nil : httpEvents [] = [] := rfl

/-- A trace filter distributes over concatenation. -/
@[simp] theorem httpEvents_append (l₁ l₂ : List Event) :
    httpEvents (l₁ ++ l₂) = httpEvents l₁ ++ httpEvents l₂ := by
  simp [httpEvents, List.filter_append]

/-- A blue print is a reported group header. -/
@[simp] theorem printedGroupNames_cons_blue (t : String) (l : List Event) :
    printedGroupNames (Event.print t Color.blue :: l) =
      t :: printedGroupNames l := rfl

/-- A grey print is not a group header. -/
@[simp] theorem printedGroupNames_cons_grey (t : String) (l : List Event) :
    printedGroupNames (Event.print t Color.grey :: l) = printedGroupNames l := rfl

/-- A green print is not a group header. -/
@[simp] theorem printedGroupNames_cons_green (t : String) (l : List Event) :
    printedGroupNames (Event.print t Color.green :: l) = printedGroupNames l := rfl

/-- A red print is not a group header. -/
@[simp] theorem printedGroupNames_cons_red (t : String) (l : List Event) :
    printedGroupNames (Event.print t Color.red :: l) = printedGroupNames l := rfl

/-- A request is not a group header. -/
@[simp] theorem printedGroupNames_cons_http (m u : String) (l : List Event) :
    printedGroupNames (Event.httpRequest m u :: l) = printedGroupNames l := rfl

/-- No events, no headers. -/
@[simp] theorem printedGroupNames_nil : printedGroupNames [] = [] := rfl

/-- Reported headers distribute over concatenation. -/
@[simp] theorem printedGroupNames_append (l₁ l₂ : List Event) :
    printedGroupNames (l₁ ++ l₂) =
      printedGroupNames l₁ ++ printedGroupNames l₂ := by
  simp [printedGroupNames, List.filterMap_append]

/-- A grey print is a case progress line. -/
@[simp] theorem printedCaseLines_cons_grey (t : String) (l : List Event) :
    printedCaseLines (Event.print t Color.grey :: l) =
      t :: printedCaseLines l := rfl

/-- A blue print is not a case progress line. -/
@[simp] theorem printedCaseLines_cons_blue (t : String) (l : List Event) :
    printedCaseLines (Event.print t Color.blue :: l) = printedCaseLines l := rfl

/-- A green print is not a case progress line. -/
@[simp] theorem printedCaseLines_cons_green (t : String) (l : List Event) :
    printedCaseLines (Event.print t Color.green :: l) = printedCaseLines l := rfl

/-- A red print is not a case progress line. -/
@[simp] theorem printedCaseLines_cons_red (t : String) (l : List Event) :
    printedCaseLines (Event.print t Color.red :: l) = printedCaseLines l := rfl

/-- A request is not a case progress line. -/
@[simp] theorem printedCaseLines_cons_http (m u : String) (l : List Event) :
    printedCaseLines (Event.httpRequest m u :: l) = printedCaseLines l := rfl

/-- No events, no progress lines. -/
@[simp] theorem printedCaseLines_nil : printedCaseLines [] = [] := rfl

/-- Case progress lines distribute over concatenation. -/
@[simp] theorem printedCaseLines_append (l₁ l₂ : List Event) :
    printedCaseLines (l₁ ++ l₂) =
      printedCaseLines l₁ ++ printedCaseLines l₂ := by
  simp [printedCaseLines, List.filterMap_append]

/-- `runCase` sends exactly one request, to the concatenated URL. -/
theorem httpEvents_runCase (server : Server) (base_uri : String) (tc : TestCase) :
    httpEvents (runCase server base_uri tc) =
      [Event.httpRequest tc.method (base_uri ++ tc.endpoint)] := by
  unfold runCase
  cases tc.conduct server base_uri <;> simp

/-- The inner loop sends one request per case, in list order. -/
theorem httpEvents_runCases (server : Server) (base_uri : String)
    (l : List TestCase) :
    httpEvents (runCases server base_uri l) =
      l.map (fun tc => Event.httpRequest tc.method (base_uri ++ tc.endpoint)) := by
  induction l with
  | nil => rfl
  | cons tc rest ih => simp [runCases, httpEvents_runCase, ih]

/-- The outer loop sends, group by group, one request per case. -/
theorem httpEvents_runGroups (server : Server) (base_uri : String)
    (gs : List TestGroup) :
    httpEvents (runGroups server base_uri gs) =
      (gs.map (fun g => g.test_cases.map (fun tc =>
        Event.httpRequest tc.method (base_uri ++ tc.endpoint)))).flatten := by
  induction gs with
  | nil => rfl
  | cons g rest ih =>
    simp [runGroups, runGroup, httpEvents_runCases, ih]

/-- `runCase` prints no blue line. -/
theorem printedGroupNames_runCase (server : Server) (base_uri : String)
    (tc : TestCase) : printedGroupNames (runCase server base_uri tc) = [] := by
  unfold runCase
  cases tc.conduct server base_uri <;> simp

/-- The inner loop prints no blue line. -/
theorem printedGroupNames_runCases (server : Server) (base_uri : String)
    (l : List TestCase) : printedGroupNames (runCases server base_uri l) = [] := by
  induction l with
  | nil => rfl
  | cons tc rest ih =>
    simp [runCases, printedGroupNames_runCase, ih]

/-- The blue lines of a run are exactly the group names, in stored order. -/
theorem printedGroupNames_runGroups (server : Server) (base_uri : String)
    (gs : List TestGroup) :
    printedGroupNames (runGroups server base_uri gs) = gs.map TestGroup.name := by
  induction gs with
  | nil => rfl
  | cons g rest ih =>
    simp [runGroups, runGroup, printedGroupNames_runCases, ih]

/-- `runCase` prints exactly one grey progress line, naming the case. -/
theorem printedCaseLines_runCase (server : Server) (base_uri : String)
    (tc : TestCase) :
    printedCaseLines (runCase server base_uri tc) =
      ["\t" ++ tc.name ++ " Testing"] := by
  unfold runCase
  cases tc.conduct server base_uri <;> simp

/-- The grey lines of the inner loop name the cases in list order. -/
theorem printedCaseLines_runCases (server : Server) (base_uri : String)
    (l : List TestCase) :
    printedCaseLines (runCases server base_uri l) =
      l.map (fun tc => "\t" ++ tc.name ++ " Testing") := by
  induction l with
  | nil => rfl
  | cons tc rest ih =>
    simp [runCases, printedCaseLines_runCase, ih]

/-- The grey lines of a run name the cases, group by group, in stored order. -/
theorem printedCaseLines_runGroups (server : Server) (base_uri : String)
    (gs : List TestGroup) :
    printedCaseLines (runGroups server base_uri gs) =
      (gs.map (fun g => g.test_cases.map
        (fun tc => "\t" ++ tc.name ++ " Testing"))).flatten := by
  induction gs with
  | nil => rfl
  | cons g rest ih =>
    simp [runGroups, runGroup, printedCaseLines_runCases, ih]

/-! ## Claim theorems -/

/-- C1: for a test case whose expected `output` is present, `conduct` returns
pass exactly when the observed status code equals the expected status AND the
full response body text equals the expected output exactly (plain string
equality, so no trimming or normalization); if either comparison fails, the
case fails. -/
theorem conduct_output_present_pass_iff (tc : TestCase) (server : Server)
    (base_uri o : String) (h : tc.output = some o) :
    tc.conduct server base_uri = true ↔
      ((server tc.method (base_uri ++ tc.endpoint)).status_code = tc.status ∧
       (server tc.method (base_uri ++ tc.endpoint)).text = o) := by
  simp [TestCase.conduct, h]

/-- Witness for C1 at a concrete case, server and base URI. -/
theorem conduct_output_present_pass_iff_witness :
    tcOut.output = some "hello" ∧
    (tcOut.conduct serverHello "http://b" = true ↔
      ((serverHello tcOut.method ("http://b" ++ tcOut.endpoint)).status_code =
        tcOut.status ∧
       (serverHello tcOut.method ("http://b" ++ tcOut.endpoint)).text = "hello")) :=
  ⟨rfl, conduct_output_present_pass_iff tcOut serverHello "http://b" "hello" rfl⟩

/-- C2: for a test case whose expected `output` is absent, `conduct` returns
pass exactly when the observed status code equals the expected status; this
holds for every server, hence for every possible response body — the body is
never consulted. -/
theorem conduct_output_absent_pass_iff (tc : TestCase) (server : Server)
    (base_uri : String) (h : tc.output = none) :
    tc.conduct server base_uri = true ↔
      (server tc.method (base_uri ++ tc.endpoint)).status_code = tc.status := by
  simp [TestCase.conduct, h]

/-- Witness for C2 at a concrete case, server and base URI. -/
theorem conduct_output_absent_pass_iff_witness :
    tcNoOut.output = none ∧
    (tcNoOut.conduct serverHello "http://b" = true ↔
      (serverHello tcNoOut.method ("http://b" ++ tcNoOut.endpoint)).status_code =
        tcNoOut.status) :=
  ⟨rfl, conduct_output_absent_pass_iff tcNoOut serverHello "http://b" rfl⟩

/-- C7: the target URL of the one HTTP request a case issues is exactly the
string concatenation of the effective base URI and the case's endpoint —
`String.append`, with no normalization, escaping, or slash reconciliation. -/
theorem request_url_literal_concat (server : Server) (base_uri : String)
    (tc : TestCase) :
    httpEvents (runCase server base_uri tc) =
      [Event.httpRequest tc.method (base_uri ++ tc.endpoint)] :=
  httpEvents_runCase server base_uri tc

/-- C10: a group whose case array is empty still gets its blue header line,
and produces no case progress line and no HTTP request. -/
theorem empty_group_prints_header (server : Server) (base_uri : String)
    (g : TestGroup) (h : g.test_cases = []) :
    runGroup server base_uri g = [Event.print g.name Color.blue] ∧
    printedCaseLines (runGroup server base_uri g) = [] ∧
    httpEvents (runGroup server base_uri g) = [] := by
  simp [runGroup, h, runCases]

/-- Witness for C10 at a concrete empty group. -/
theorem empty_group_prints_header_witness :
    emptyGroup.test_cases = [] ∧
    (runGroup serverHello "http://b" emptyGroup =
      [Event.print emptyGroup.name Color.blue] ∧
     printedCaseLines (runGroup serverHello "http://b" emptyGroup) = [] ∧
     httpEvents (runGroup serverHello "http://b" emptyGroup) = []) :=
  ⟨rfl, empty_group_prints_header serverHello "http://b" emptyGroup rfl⟩

/-- C4: when neither an override base URI nor a bundle default is present,
the run fails with the "no base URI" error and performs zero network calls
(the error branch carries no events at all); when at least one of the two is
present, the executor does not raise the resolution error. -/
theorem no_base_uri_fatal_before_network (t t2 : Test) (server : Server)
    (b d : String) (hnone : t.default_uri = none)
    (hd : t2.default_uri = some d) :
    conduct_tests t server none =
      Except.error ("No base URI provided " ++ "and no default URI.") ∧
    httpEventsE (conduct_tests t server none) = [] ∧
    exceptIsOk (conduct_tests t server (some b)) = true ∧
    exceptIsOk (conduct_tests t2 server none) = true := by
  simp [conduct_tests, hnone, hd, httpEventsE, exceptIsOk]

/-- Witness for C4 at concrete bundles with and without a default URI. -/
theorem no_base_uri_fatal_before_network_witness :
    testNoDefault.default_uri = none ∧
    testWithDefault.default_uri = some "http://d" ∧
    (conduct_tests testNoDefault serverHello none =
      Except.error ("No base URI provided " ++ "and no default URI.") ∧
     httpEventsE (conduct_tests testNoDefault serverHello none) = [] ∧
     exceptIsOk (conduct_tests testNoDefault serverHello (some "http://b")) = true ∧
     exceptIsOk (conduct_tests testWithDefault serverHello none) = true) :=
  ⟨rfl, rfl, no_base_uri_fatal_before_network testNoDefault testWithDefault
    serverHello "http://b" "http://d" rfl rfl⟩

/-- C3 counterexample: the claim conditions override use on the override
being non-empty, but the code only tests it against `None`.  With the empty
override `some ""` and the default `"http://d"` both present, the claimed
resolution picks the default, yet the code requests `"" ++ "/a" = "/a"`
rather than `"http://d/a"`. -/
theorem base_uri_empty_override_counterexample :
    httpEventsE (conduct_tests testWithDefault serverHello (some "")) =
      [Event.httpRequest "GET" "/a"] ∧
    spec_effective_base_uri (some "") (some "http://d") = some "http://d" ∧
    ("" ++ "/a" : String) = "/a" ∧
    ("http://d" ++ "/a" : String) = "http://d/a" ∧
    ("/a" : String) ≠ "http://d/a" := by
  refine ⟨rfl, rfl, rfl, rfl, ?_⟩
  decide

/-- C3 (amended): the executor resolves the effective base URI on `None`
alone: any provided override — the empty string included — is used, and only
an absent (`None`) override falls back to the bundle default; in particular,
for any pair of values with both an override and a default present, the
override takes precedence. -/
theorem base_uri_override_precedence (t : Test) (server : Server)
    (b d : String) (hd : t.default_uri = some d) :
    conduct_tests t server (some b) =
      Except.ok (runGroups server b t.test_groups) ∧
    conduct_tests t server none =
      Except.ok (runGroups server d t.test_groups) := by
  simp [conduct_tests, hd]

/-- Witness for the amended C3 at a concrete bundle and pair of URIs. -/
theorem base_uri_override_precedence_witness :
    testWithDefault.default_uri = some "http://d" ∧
    (conduct_tests testWithDefault serverHello (some "http://b") =
      Except.ok (runGroups serverHello "http://b" testWithDefault.test_groups) ∧
     conduct_tests testWithDefault serverHello none =
      Except.ok (runGroups serverHello "http://d" testWithDefault.test_groups)) :=
  ⟨rfl, base_uri_override_precedence testWithDefault serverHello
    "http://b" "http://d" rfl⟩

/-- C8: an assertion failure never terminates the run.  For every server —
in particular one failing any subset of the assertions — the executor
completes with a full trace, and its network calls are exactly one request
per case of every group, in stored sequence; pass/fail outcomes do not
change which cases are conducted. -/
theorem assertion_failure_never_terminates (t : Test) (server : Server)
    (b : String) :
    conduct_tests t server (some b) =
      Except.ok (runGroups server b t.test_groups) ∧
    httpEventsE (conduct_tests t server (some b)) =
      (t.test_groups.map (fun g => g.test_cases.map (fun tc =>
        Event.httpRequest tc.method (b ++ tc.endpoint)))).flatten := by
  refine ⟨rfl, ?_⟩
  simp [conduct_tests, httpEventsE, httpEvents_runGroups]

/-- A well-typed present value at a string position is a string. -/
theorem optIsStr_eq (v : Json) (h : optIsStr (some v) = true) :
    ∃ s, v = Json.str s := by
  cases v <;> simp [optIsStr] at h ⊢

/-- A well-typed present value at an integer position is an integer. -/
theorem optIsInt_eq (v : Json) (h : optIsInt (some v) = true) :
    ∃ n, v = Json.num n := by
  cases v <;> simp [optIsInt] at h ⊢

/-- `parse_test_case` on a well-typed case dict: it succeeds exactly when
none of the four required fields is missing, any failure is a `KeyError`,
and on success the parsed name is the dict's `Name` and the parsed output is
present exactly when the dict's `Output` is. -/
theorem parse_test_case_spec (cd : List (String × Json))
    (hw : wellTypedCaseDict cd = true) :
    exceptIsOk (parse_test_case cd) = !(caseMissingRequired cd) ∧
    errorIsKeyError (parse_test_case cd) = true ∧
    ∀ tc, parse_test_case cd = Except.ok tc →
      some tc.name = caseNameOfJson (Json.obj cd) ∧
      tc.output.isNone = (dictGet cd "Output").isNone := by
  simp only [wellTypedCaseDict, Bool.and_eq_true] at hw
  obtain ⟨⟨⟨⟨hw1, hw2⟩, hw3⟩, hw4⟩, hw5⟩ := hw
  cases hn : dictGet cd "Name" with
  | none =>
    simp [parse_test_case, requireKey, hn, caseMissingRequired, exceptIsOk,
      errorIsKeyError]
  | some nv =>
    rw [hn] at hw1
    obtain ⟨ns, rfl⟩ := optIsStr_eq nv hw1
    cases he : dictGet cd "Endpoint" with
    | none =>
      simp [parse_test_case, requireKey, hn, he, getStr, caseMissingRequired,
        exceptIsOk, errorIsKeyError]
    | some ev =>
      rw [he] at hw2
      obtain ⟨es, rfl⟩ := optIsStr_eq ev hw2
      cases hm : dictGet cd "Method" with
      | none =>
        simp [parse_test_case, requireKey, hn, he, hm, getStr,
          caseMissingRequired, exceptIsOk, errorIsKeyError]
      | some mv =>
        rw [hm] at hw3
        obtain ⟨ms, rfl⟩ := optIsStr_eq mv hw3
        cases hs : dictGet cd "Status" with
        | none =>
          simp [parse_test_case, requireKey, hn, he, hm, hs, getStr,
            caseMissingRequired, exceptIsOk, errorIsKeyError]
        | some sv =>
          rw [hs] at hw4
          obtain ⟨sn, rfl⟩ := optIsInt_eq sv hw4
          cases ho : dictGet cd "Output" with
          | none =>
            simp [parse_test_case, requireKey, hn, he, hm, hs, ho, getStr,
              getInt, caseMissingRequired, exceptIsOk, errorIsKeyError,
              caseNameOfJson]
          | some ov =>
            rw [ho] at hw5
            obtain ⟨os, rfl⟩ := optIsStr_eq ov hw5
            simp [parse_test_case, requireKey, hn, he, hm, hs, ho, getStr,
              getInt, caseMissingRequired, exceptIsOk, errorIsKeyError,
              caseNameOfJson]

/-- `parse_test_cases` on a well-typed case array: it succeeds exactly when
no case is missing a required field, any failure is a `KeyError`, and on
success the parsed case names are the `Name` fields in array order. -/
theorem parse_test_cases_spec (xs : List Json)
    (hw : xs.all wellTypedCaseJson = true) :
    exceptIsOk (parse_test_cases xs) = !(xs.any caseJsonMissing) ∧
    errorIsKeyError (parse_test_cases xs) = true ∧
    ∀ cs, parse_test_cases xs = Except.ok cs →
      cs.map TestCase.name = xs.filterMap caseNameOfJson := by
  induction xs with
  | nil => simp [parse_test_cases, exceptIsOk, errorIsKeyError]
  | cons x rest ih =>
    simp only [List.all_cons, Bool.and_eq_true] at hw
    obtain ⟨hx, hrest⟩ := hw
    obtain ⟨ih1, ih2, ih3⟩ := ih hrest
    cases x with
    | obj cd =>
      have hcd : wellTypedCaseDict cd = true := by
        simpa [wellTypedCaseJson] using hx
      obtain ⟨c1, c2, c3⟩ := parse_test_case_spec cd hcd
      cases hpc : parse_test_case cd with
      | error e =>
        have hMiss : caseMissingRequired cd = true := by
          rw [hpc] at c1
          cases hh : caseMissingRequired cd
          · rw [hh] at c1
            simp [exceptIsOk] at c1
          · rfl
        have hKey : ∃ k, e = ParseError.keyError k := by
          rw [hpc] at c2
          cases e with
          | keyError k => exact ⟨k, rfl⟩
          | typeError => simp [errorIsKeyError] at c2
        obtain ⟨k, rfl⟩ := hKey
        refine ⟨?_, ?_, ?_⟩
        · simp [parse_test_cases, getObj, hpc, exceptIsOk, caseJsonMissing,
            hMiss]
        · simp [parse_test_cases, getObj, hpc, errorIsKeyError]
        · simp [parse_test_cases, getObj, hpc]
      | ok tc =>
        have hMiss : caseMissingRequired cd = false := by
          rw [hpc] at c1
          cases hh : caseMissingRequired cd
          · rfl
          · rw [hh] at c1
            simp [exceptIsOk] at c1
        obtain ⟨c3a, _⟩ := c3 tc hpc
        cases hrest2 : parse_test_cases rest with
        | error e =>
          have hAny : rest.any caseJsonMissing = true := by
            rw [hrest2] at ih1
            cases hh : rest.any caseJsonMissing
            · rw [hh] at ih1
              simp [exceptIsOk] at ih1
            · rfl
          have hKey : ∃ k, e = ParseError.keyError k := by
            rw [hrest2] at ih2
            cases e with
            | keyError k => exact ⟨k, rfl⟩
            | typeError => simp [errorIsKeyError] at ih2
          obtain ⟨k, rfl⟩ := hKey
          refine ⟨?_, ?_, ?_⟩
          · simp [parse_test_cases, getObj, hpc, hrest2, exceptIsOk, hAny]
          · simp [parse_test_cases, getObj, hpc, hrest2, errorIsKeyError]
          · simp [parse_test_cases, getObj, hpc, hrest2]
        | ok cs =>
          have hAny : rest.any caseJsonMissing = false := by
            rw [hrest2] at ih1
            cases hh : rest.any caseJsonMissing
            · rfl
            · rw [hh] at ih1
              simp [exceptIsOk] at ih1
          refine ⟨?_, ?_, ?_⟩
          · simp [parse_test_cases, getObj, hpc, hrest2, exceptIsOk,
              caseJsonMissing, hMiss, hAny]
          · simp [parse_test_cases, getObj, hpc, hrest2, errorIsKeyError]
          · intro cs0 hcs0
            simp [parse_test_cases, getObj, hpc, hrest2] at hcs0
            subst hcs0
            simp [List.filterMap_cons, ← c3a, ih3 cs hrest2]
    | null => simp [wellTypedCaseJson] at hx
    | bool b => simp [wellTypedCaseJson] at hx
    | num n => simp [wellTypedCaseJson] at hx
    | str s => simp [wellTypedCaseJson] at hx
    | arr l => simp [wellTypedCaseJson] at hx

/-- The group loop on well-typed remaining entries: it succeeds exactly when
no group value has a malformed case, any failure is a `KeyError`, and on
success the groups carry the entry keys as names, in entry order, with each
group's case names in its array's order. -/
theorem parseGroupsLoop_spec (l : List (String × Json))
    (hw : l.all (fun p => wellTypedGroupValue p.2) = true) :
    exceptIsOk (parseGroupsLoop l) = !(l.any (fun p => groupValueMissing p.2)) ∧
    errorIsKeyError (parseGroupsLoop l) = true ∧
    ∀ gs, parseGroupsLoop l = Except.ok gs →
      gs.map TestGroup.name = l.map Prod.fst ∧
      gs.map (fun g => g.test_cases.map TestCase.name) =
        l.map (fun p => caseNamesOfGroupValue p.2) := by
  induction l with
  | nil => simp [parseGroupsLoop, exceptIsOk, errorIsKeyError]
  | cons p rest ih =>
    obtain ⟨k, v⟩ := p
    simp only [List.all_cons, Bool.and_eq_true] at hw
    obtain ⟨hv, hrest⟩ := hw
    obtain ⟨ih1, ih2, ih3⟩ := ih hrest
    cases v with
    | arr xs =>
      have hxs : xs.all wellTypedCaseJson = true := by
        simpa [wellTypedGroupValue] using hv
      obtain ⟨a1, a2, a3⟩ := parse_test_cases_spec xs hxs
      cases hpc : parse_test_cases xs with
      | error e =>
        have hAnyx : xs.any caseJsonMissing = true := by
          rw [hpc] at a1
          cases hh : xs.any caseJsonMissing
          · rw [hh] at a1
            simp [exceptIsOk] at a1
          · rfl
        have hKey : ∃ k0, e = ParseError.keyError k0 := by
          rw [hpc] at a2
          cases e with
          | keyError k0 => exact ⟨k0, rfl⟩
          | typeError => simp [errorIsKeyError] at a2
        obtain ⟨k0, rfl⟩ := hKey
        refine ⟨?_, ?_, ?_⟩
        · simp [parseGroupsLoop, getArr, hpc, exceptIsOk, groupValueMissing,
            hAnyx]
        · simp [parseGroupsLoop, getArr, hpc, errorIsKeyError]
        · simp [parseGroupsLoop, getArr, hpc]
      | ok cs =>
        have hAnyx : xs.any caseJsonMissing = false := by
          rw [hpc] at a1
          cases hh : xs.any caseJsonMissing
          · rfl
          · rw [hh] at a1
            simp [exceptIsOk] at a1
        cases hrest2 : parseGroupsLoop rest with
        | error e =>
          have hAny : rest.any (fun p => groupValueMissing p.2) = true := by
            rw [hrest2] at ih1
            cases hh : rest.any (fun p => groupValueMissing p.2)
            · rw [hh] at ih1
              simp [exceptIsOk] at ih1
            · rfl
          have hKey : ∃ k0, e = ParseError.keyError k0 := by
            rw [hrest2] at ih2
            cases e with
            | keyError k0 => exact ⟨k0, rfl⟩
            | typeError => simp [errorIsKeyError] at ih2
          obtain ⟨k0, rfl⟩ := hKey
          refine ⟨?_, ?_, ?_⟩
          · simp [parseGroupsLoop, getArr, hpc, hrest2, exceptIsOk, hAny]
          · simp [parseGroupsLoop, getArr, hpc, hrest2, errorIsKeyError]
          · simp [parseGroupsLoop, getArr, hpc, hrest2]
        | ok gs =>
          have hAny : rest.any (fun p => groupValueMissing p.2) = false := by
            rw [hrest2] at ih1
            cases hh : rest.any (fun p => groupValueMissing p.2)
            · rfl
            · rw [hh] at ih1
              simp [exceptIsOk] at ih1
          have hg : groupValueMissing (Json.arr xs) = false := by
            simp [groupValueMissing, hAnyx]
          refine ⟨?_, ?_, ?_⟩
          · simp [parseGroupsLoop, getArr, hpc, hrest2, exceptIsOk,
              List.any_cons, hg, hAny]
          · simp [parseGroupsLoop, getArr, hpc, hrest2, errorIsKeyError]
          · intro gs0 hgs0
            simp [parseGroupsLoop, getArr, hpc, hrest2] at hgs0
            subst hgs0
            obtain ⟨n1, n2⟩ := ih3 gs hrest2
            refine ⟨?_, ?_⟩
            · simp [n1]
            · simp [n2, caseNamesOfGroupValue, a3 cs hpc]
    | null => simp [wellTypedGroupValue] at hv
    | bool b => simp [wellTypedGroupValue] at hv
    | num n => simp [wellTypedGroupValue] at hv
    | str s => simp [wellTypedGroupValue] at hv
    | obj o => simp [wellTypedGroupValue] at hv

/-- The remaining entries of a well-typed document are well-typed groups. -/
theorem remainingEntries_wellTyped (doc : List (String × Json))
    (hw : wellTypedDoc doc = true) :
    (remainingEntries doc).all (fun p => wellTypedGroupValue p.2) = true := by
  simp only [wellTypedDoc, Bool.and_eq_true] at hw
  exact hw.2

/-- `parse_test_groups` on a well-typed document: it succeeds exactly when
the document is not missing `Name` or a required case field, any failure is
a `KeyError`, and on success the returned dictionary is the document less
its reserved keys and the groups carry the remaining keys, in order, with
case names in array order. -/
theorem parse_test_groups_spec (doc : List (String × Json))
    (hw : wellTypedDoc doc = true) :
    exceptIsOk (parse_test_groups doc) = !(docMissingRequired doc) ∧
    errorIsKeyError (parse_test_groups doc) = true ∧
    ∀ gs d', parse_test_groups doc = Except.ok (gs, d') →
      d' = remainingEntries doc ∧
      gs.map TestGroup.name = (remainingEntries doc).map Prod.fst ∧
      gs.map (fun g => g.test_cases.map TestCase.name) =
        (remainingEntries doc).map (fun p => caseNamesOfGroupValue p.2) := by
  have hone : dictGet (dictDel doc "Default URI") "Name" = dictGet doc "Name" :=
    dictGet_dictDel_ne doc "Default URI" "Name" (by decide)
  have hrem : dictDel (dictDel doc "Default URI") "Name" = remainingEntries doc :=
    rfl
  obtain ⟨g1, g2, g3⟩ :=
    parseGroupsLoop_spec (remainingEntries doc) (remainingEntries_wellTyped doc hw)
  cases hname : dictGet doc "Name" with
  | none =>
    refine ⟨?_, ?_, ?_⟩
    · simp [parse_test_groups, hone, hname, exceptIsOk, docMissingRequired]
    · simp [parse_test_groups, hone, hname, errorIsKeyError]
    · simp [parse_test_groups, hone, hname]
  | some nv =>
    cases hloop : parseGroupsLoop (remainingEntries doc) with
    | error e =>
      have hAny : (remainingEntries doc).any (fun p => groupValueMissing p.2) = true := by
        rw [hloop] at g1
        cases hh : (remainingEntries doc).any (fun p => groupValueMissing p.2)
        · rw [hh] at g1
          simp [exceptIsOk] at g1
        · rfl
      have hKey : ∃ k0, e = ParseError.keyError k0 := by
        rw [hloop] at g2
        cases e with
        | keyError k0 => exact ⟨k0, rfl⟩
        | typeError => simp [errorIsKeyError] at g2
      obtain ⟨k0, rfl⟩ := hKey
      refine ⟨?_, ?_, ?_⟩
      · simp [parse_test_groups, hone, hname, hrem, hloop, exceptIsOk,
          docMissingRequired, hAny]
      · simp [parse_test_groups, hone, hname, hrem, hloop, errorIsKeyError]
      · simp [parse_test_groups, hone, hname, hrem, hloop]
    | ok gs =>
      have hAny : (remainingEntries doc).any (fun p => groupValueMissing p.2) = false := by
        rw [hloop] at g1
        cases hh : (remainingEntries doc).any (fun p => groupValueMissing p.2)
        · rfl
        · rw [hh] at g1
          simp [exceptIsOk] at g1
      refine ⟨?_, ?_, ?_⟩
      · simp [parse_test_groups, hone, hname, hrem, hloop, exceptIsOk,
          docMissingRequired, hAny]
      · simp [parse_test_groups, hone, hname, hrem, hloop, errorIsKeyError]
      · intro gs0 d' h0
        simp [parse_test_groups, hone, hname, hrem, hloop] at h0
        obtain ⟨hgs0, hd'⟩ := h0
        obtain ⟨n1, n2⟩ := g3 gs hloop
        subst hgs0
        exact ⟨hd'.symm, n1, n2⟩

/-- `parse_tests` on a well-typed document: it succeeds exactly when the
document is not missing `Name` or a required case field, any failure is a
`KeyError`, and on success the bundle's groups carry the remaining keys in
document order with case names in array order, and the bundle's default URI
is the document's `Default URI` (read before `parse_test_groups` deletes
it). -/
theorem parse_tests_spec (doc : List (String × Json))
    (hw : wellTypedDoc doc = true) :
    exceptIsOk (parse_tests doc) = !(docMissingRequired doc) ∧
    errorIsKeyError (parse_tests doc) = true ∧
    ∀ t, parse_tests doc = Except.ok t →
      t.test_groups.map TestGroup.name = (remainingEntries doc).map Prod.fst ∧
      t.test_groups.map (fun g => g.test_cases.map TestCase.name) =
        (remainingEntries doc).map (fun p => caseNamesOfGroupValue p.2) ∧
      (∀ u, dictGet doc "Default URI" = some (Json.str u) →
        t.default_uri = some u) ∧
      (dictGet doc "Default URI" = none → t.default_uri = none) := by
  have hw0 := hw
  simp only [wellTypedDoc, Bool.and_eq_true] at hw0
  obtain ⟨⟨hw1, hw2⟩, _⟩ := hw0
  obtain ⟨g1, g2, g3⟩ := parse_test_groups_spec doc hw
  have hdu : (dictGet doc "Default URI" = none) ∨
      (∃ us, dictGet doc "Default URI" = some (Json.str us)) := by
    cases hh : dictGet doc "Default URI" with
    | none => exact Or.inl rfl
    | some dv =>
      rw [hh] at hw2
      obtain ⟨us, rfl⟩ := optIsStr_eq dv hw2
      exact Or.inr ⟨us, rfl⟩
  cases hname : dictGet doc "Name" with
  | none =>
    have hmiss : docMissingRequired doc = true := by
      simp [docMissingRequired, hname]
    rcases hdu with hdu0 | ⟨us, hdu0⟩ <;>
      refine ⟨?_, ?_, ?_⟩ <;>
      simp [parse_tests, requireKey, hdu0, getStr, hname, exceptIsOk,
        errorIsKeyError, hmiss]
  | some nv =>
    rw [hname] at hw1
    obtain ⟨ns, rfl⟩ := optIsStr_eq nv hw1
    cases hpg : parse_test_groups doc with
    | error e =>
      have hmiss : docMissingRequired doc = true := by
        rw [hpg] at g1
        cases hh : docMissingRequired doc
        · rw [hh] at g1
          simp [exceptIsOk] at g1
        · rfl
      have hKey : ∃ k0, e = ParseError.keyError k0 := by
        rw [hpg] at g2
        cases e with
        | keyError k0 => exact ⟨k0, rfl⟩
        | typeError => simp [errorIsKeyError] at g2
      obtain ⟨k0, rfl⟩ := hKey
      rcases hdu with hdu0 | ⟨us, hdu0⟩ <;>
        refine ⟨?_, ?_, ?_⟩ <;>
        simp [parse_tests, requireKey, hdu0, getStr, hname, hpg, exceptIsOk,
          errorIsKeyError, hmiss]
    | ok r =>
      obtain ⟨gs, d'⟩ := r
      have hmiss : docMissingRequired doc = false := by
        rw [hpg] at g1
        cases hh : docMissingRequired doc
        · rfl
        · rw [hh] at g1
          simp [exceptIsOk] at g1
      obtain ⟨_, n1, n2⟩ := g3 gs d' hpg
      rcases hdu with hdu0 | ⟨us, hdu0⟩ <;>
        refine ⟨?_, ?_, ?_⟩ <;>
        simp [parse_tests, requireKey, hdu0, getStr, hname, hpg, exceptIsOk,
          errorIsKeyError, hmiss] <;>
        exact ⟨n1, n2⟩

/-- C5: on any well-typed document with no missing required field, parsing
succeeds and maps every top-level key other than the reserved `"Name"` and
`"Default URI"` to a group, in original document key order, with each
group's cases in original array order; and the executor's report lists the
group headers and the per-case lines in exactly that stored order. -/
theorem parse_and_report_preserve_order (doc : List (String × Json))
    (server : Server) (b : String)
    (hw : wellTypedDoc doc = true) (hm : docMissingRequired doc = false) :
    exceptIsOk (parse_tests doc) = true ∧
    (parsedGroups doc).map TestGroup.name = (remainingEntries doc).map Prod.fst ∧
    (parsedGroups doc).map (fun g => g.test_cases.map TestCase.name) =
      (remainingEntries doc).map (fun p => caseNamesOfGroupValue p.2) ∧
    printedGroupNamesE (conduct_tests (parsedTest doc) server (some b)) =
      (remainingEntries doc).map Prod.fst ∧
    printedCaseLinesE (conduct_tests (parsedTest doc) server (some b)) =
      ((remainingEntries doc).map (fun p => (caseNamesOfGroupValue p.2).map
        (fun n => "\t" ++ n ++ " Testing"))).flatten := by
  obtain ⟨p1, _, p3⟩ := parse_tests_spec doc hw
  rw [hm] at p1
  cases hpt : parse_tests doc with
  | error e =>
    rw [hpt] at p1
    simp [exceptIsOk] at p1
  | ok t =>
    obtain ⟨q1, q2, _⟩ := p3 t hpt
    have hg : parsedGroups doc = t.test_groups := by simp [parsedGroups, hpt]
    have hpt2 : parsedTest doc = t := by simp [parsedTest, hpt]
    have he : t.test_groups.map (fun g => g.test_cases.map
        (fun tc => "\t" ++ tc.name ++ " Testing")) =
        (remainingEntries doc).map (fun p => (caseNamesOfGroupValue p.2).map
          (fun n => "\t" ++ n ++ " Testing")) := by
      have h1 : t.test_groups.map (fun g => g.test_cases.map
          (fun tc => "\t" ++ tc.name ++ " Testing")) =
          (t.test_groups.map (fun g => g.test_cases.map TestCase.name)).map
            (List.map (fun n => "\t" ++ n ++ " Testing")) := by
        simp [List.map_map, Function.comp]
      rw [h1, q2]
      simp [List.map_map, Function.comp]
    refine ⟨by simp [exceptIsOk, hpt], ?_, ?_, ?_, ?_⟩
    · rw [hg]
      exact q1
    · rw [hg]
      exact q2
    · rw [hpt2]
      simp only [conduct_tests, printedGroupNamesE, printedGroupNames_runGroups]
      exact q1
    · rw [hpt2]
      simp only [conduct_tests, printedCaseLinesE, printedCaseLines_runGroups]
      rw [he]

/-- Witness for C5 at a concrete two-group document. -/
theorem parse_and_report_preserve_order_witness :
    wellTypedDoc docA = true ∧ docMissingRequired docA = false ∧
    (exceptIsOk (parse_tests docA) = true ∧
     (parsedGroups docA).map TestGroup.name =
       (remainingEntries docA).map Prod.fst ∧
     (parsedGroups docA).map (fun g => g.test_cases.map TestCase.name) =
       (remainingEntries docA).map (fun p => caseNamesOfGroupValue p.2) ∧
     printedGroupNamesE (conduct_tests (parsedTest docA) serverHello
       (some "http://b")) = (remainingEntries docA).map Prod.fst ∧
     printedCaseLinesE (conduct_tests (parsedTest docA) serverHello
       (some "http://b")) =
       ((remainingEntries docA).map (fun p => (caseNamesOfGroupValue p.2).map
         (fun n => "\t" ++ n ++ " Testing"))).flatten) :=
  ⟨rfl, rfl, parse_and_report_preserve_order docA serverHello "http://b" rfl rfl⟩

/-- C6: on any well-typed document, parsing fails — with a lookup
(`KeyError`) failure, and structurally before any executor step, since
`parse_tests` never touches a server — exactly when the top-level `"Name"`
key is missing or some case object is missing one of `Name`, `Endpoint`,
`Method`, `Status` (no default is substituted); and a case dict with the
four required fields but no `Output` parses successfully to a case whose
`output` is `none`. -/
theorem parse_missing_required_fields (doc cd : List (String × Json))
    (hw : wellTypedDoc doc = true) (hcd : wellTypedCaseDict cd = true)
    (hreq : caseMissingRequired cd = false) (hout : dictGet cd "Output" = none) :
    exceptIsOk (parse_tests doc) = !(docMissingRequired doc) ∧
    errorIsKeyError (parse_tests doc) = true ∧
    exceptIsOk (parse_test_case cd) = true ∧
    parsedCaseOutput cd = none := by
  obtain ⟨p1, p2, _⟩ := parse_tests_spec doc hw
  obtain ⟨c1, c2, c3⟩ := parse_test_case_spec cd hcd
  refine ⟨p1, p2, ?_, ?_⟩
  · rw [c1, hreq]
    rfl
  · cases hpc : parse_test_case cd with
    | error e =>
      rw [hpc, hreq] at c1
      simp [exceptIsOk] at c1
    | ok tc =>
      obtain ⟨_, c3b⟩ := c3 tc hpc
      rw [hout] at c3b
      simp only [Option.isNone_none] at c3b
      have ho : tc.output = none := Option.isNone_iff_eq_none.mp c3b
      simp [parsedCaseOutput, hpc, ho]

/-- Witness for C6 at a concrete document and case dict. -/
theorem parse_missing_required_fields_witness :
    wellTypedDoc docA = true ∧ wellTypedCaseDict cdNoOutput = true ∧
    caseMissingRequired cdNoOutput = false ∧
    dictGet cdNoOutput "Output" = none ∧
    (exceptIsOk (parse_tests docA) = !(docMissingRequired docA) ∧
     errorIsKeyError (parse_tests docA) = true ∧
     exceptIsOk (parse_test_case cdNoOutput) = true ∧
     parsedCaseOutput cdNoOutput = none) :=
  ⟨rfl, rfl, rfl, rfl,
   parse_missing_required_fields docA cdNoOutput rfl rfl rfl rfl⟩

/-- C9: `parse_test_groups` mutates its input dictionary: the dictionary it
hands back lacks both `"Name"` and `"Default URI"`, a second call on that
dictionary fails with `KeyError("Name")`, and the bundle `parse_tests`
builds still carries the original `Default URI` — it could only have read
it before the deletion. -/
theorem parse_test_groups_mutates_input (d d' : List (String × Json))
    (gs : List TestGroup) (t : Test) (u : String)
    (h : parse_test_groups d = Except.ok (gs, d'))
    (ht : parse_tests d = Except.ok t)
    (hdu : dictGet d "Default URI" = some (Json.str u)) :
    dictGet d' "Name" = none ∧ dictGet d' "Default URI" = none ∧
    parse_test_groups d' = Except.error (ParseError.keyError "Name") ∧
    t.default_uri = some u := by
  simp only [parse_test_groups] at h
  cases hname : dictGet (dictDel d "Default URI") "Name" with
  | none =>
    rw [hname] at h
    simp at h
  | some nv =>
    rw [hname] at h
    cases hloop : parseGroupsLoop (dictDel (dictDel d "Default URI") "Name") with
    | error e =>
      rw [hloop] at h
      simp at h
    | ok gs0 =>
      rw [hloop] at h
      simp only [exceptMap_ok, Except.ok.injEq, Prod.mk.injEq] at h
      obtain ⟨hgs, hd'⟩ := h
      subst hgs
      subst hd'
      have h1 : dictGet (dictDel (dictDel d "Default URI") "Name") "Name" =
          none := dictGet_dictDel_self _ "Name"
      have h2 : dictGet (dictDel (dictDel d "Default URI") "Name")
          "Default URI" = none := by
        rw [dictGet_dictDel_ne (dictDel d "Default URI") "Name" "Default URI"
          (by decide)]
        exact dictGet_dictDel_self d "Default URI"
      have h3 : parse_test_groups (dictDel (dictDel d "Default URI") "Name") =
          Except.error (ParseError.keyError "Name") := by
        have h4 : dictGet (dictDel (dictDel (dictDel d "Default URI") "Name")
            "Default URI") "Name" = none := by
          rw [dictGet_dictDel_ne (dictDel (dictDel d "Default URI") "Name")
            "Default URI" "Name" (by decide)]
          exact h1
        simp [parse_test_groups, h4]
      have hpg : parse_test_groups d =
          Except.ok (gs0, dictDel (dictDel d "Default URI") "Name") := by
        simp [parse_test_groups, hname, hloop]
      have h5 : t.default_uri = some u := by
        simp only [parse_tests] at ht
        rw [hdu] at ht
        simp only [getStr, exceptPure_eq, exceptBind_ok, requireKey] at ht
        cases hn2 : dictGet d "Name" with
        | none =>
          rw [hn2] at ht
          simp at ht
        | some nv2 =>
          rw [hn2] at ht
          cases nv2 with
          | str s =>
            simp only [getStr, exceptBind_ok, hpg, exceptPure_eq,
              Except.ok.injEq] at ht
            rw [← ht]
          | null => simp [getStr] at ht
          | bool b0 => simp [getStr] at ht
          | num n0 => simp [getStr] at ht
          | arr l0 => simp [getStr] at ht
          | obj o0 => simp [getStr] at ht
      exact ⟨h1, h2, h3, h5⟩

/-- Witness for C9 at a concrete document. -/
theorem parse_test_groups_mutates_input_witness :
    parse_test_groups docA = Except.ok (docAGroups, docARemaining) ∧
    parse_tests docA = Except.ok docATest ∧
    dictGet docA "Default URI" = some (Json.str "http://x") ∧
    (dictGet docARemaining "Name" = none ∧
     dictGet docARemaining "Default URI" = none ∧
     parse_test_groups docARemaining =
       Except.error (ParseError.keyError "Name") ∧
     docATest.default_uri = some "http://x") :=
  ⟨rfl, rfl, rfl,
   parse_test_groups_mutates_input docA docARemaining docAGroups docATest
     "http://x" rfl rfl rfl⟩
